import Mathlib

/-!
Verification of the post listing, sorting, slugging and search-index
pipeline of the blog repository.

The data model (`PostRecord`) follows the spec's §3 record shape; the
repository's front matter uses the field names `pubDatetime` /
`postSlug`, which the spec names `publishedAt` / `slugOverride`.
Timestamps are modelled as natural numbers (epoch instants), which is
faithful because the only operation the code performs on them is
comparison.

The endpoint `latestPostsGet` is embedded from
`src/src/pages/latest-posts.json.ts`.  The utilities that file imports
(`@utils/getSortedPosts`, `@utils/slugify`) and the search-index builder
are not present in the source tree, so they are modelled from the spec
(§4.1–§4.4); each such definition carries a doc comment saying so.
-/

namespace Blog

/-- The post record produced by the content store (spec §3).  Front-matter
field `pubDatetime` is `publishedAt`, `postSlug` is `slugOverride`. -/
structure PostRecord where
  title : String
  description : String
  body : String
  author : String
  publishedAt : Nat
  modifiedAt : Option Nat
  tags : List String
  featured : Bool
  draft : Bool
  slugOverride : Option String
deriving DecidableEq

/-- Modelled from the spec: a post's effective date is its `modifiedAt`
timestamp when present and its `publishedAt` timestamp otherwise
(spec §4.1, glossary). -/
def effectiveDate (p : PostRecord) : Nat :=
  p.modifiedAt.getD p.publishedAt

/-- The sorting relation: `a` comes no later than `b` in the output when
`a`'s effective date is at least `b`'s (descending, most recent first). -/
def postLaterEq (a b : PostRecord) : Prop :=
  effectiveDate b ≤ effectiveDate a

instance : DecidableRel postLaterEq :=
  fun a b => inferInstanceAs (Decidable (effectiveDate b ≤ effectiveDate a))

instance : IsTotal PostRecord postLaterEq :=
  ⟨fun a b => Nat.le_total (effectiveDate b) (effectiveDate a)⟩

instance : IsTrans PostRecord postLaterEq :=
  ⟨fun _ _ _ h1 h2 => Nat.le_trans h2 h1⟩

/-- Modelled from the spec: `sortPosts` (the repository's
`@utils/getSortedPosts`, absent from the source tree) sorts descending by
effective date, stable on ties, with no filtering (spec §4.1).  A stable
insertion sort realises exactly this contract (JavaScript's
`Array.prototype.sort` is likewise stable). -/
def sortPosts (posts : List PostRecord) : List PostRecord :=
  posts.insertionSort postLaterEq

/-- Modelled from the spec: `latest(posts, n)` takes the first `n`
elements of the sorted list (spec §4.2). -/
def latest (posts : List PostRecord) (n : Nat) : List PostRecord :=
  (sortPosts posts).take n

/-- A character allowed in a derived slug: `[a-z0-9-]` (spec §4.3). -/
def isSlugChar (c : Char) : Bool :=
  (decide ('a' ≤ c) && decide (c ≤ 'z')) ||
  (decide ('0' ≤ c) && decide (c ≤ '9')) ||
  c == '-'

/-- Replace every maximal run of characters satisfying `p` by a single
copy of `rep`, leaving other characters untouched. -/
def runsToChar (p : Char → Bool) (rep : Char) : List Char → List Char
  | [] => []
  | c :: cs =>
    if p c then
      match cs with
      | [] => [rep]
      | d :: _ => if p d then runsToChar p rep cs else rep :: runsToChar p rep cs
    else c :: runsToChar p rep cs

/-- Replace whitespace runs by a single hyphen (spec §4.3). -/
def wsRunsToHyphen (l : List Char) : List Char :=
  runsToChar Char.isWhitespace '-' l

/-- Collapse runs of consecutive hyphens into one (spec §4.3). -/
def collapseHyphens (l : List Char) : List Char :=
  runsToChar (fun c => c == '-') '-' l

/-- Trim leading and trailing hyphens (spec §4.3). -/
def trimHyphens (l : List Char) : List Char :=
  ((l.dropWhile (fun c => c == '-')).reverse.dropWhile (fun c => c == '-')).reverse

/-- Modelled from the spec: slug derivation from the title — lower-case,
replace whitespace runs with a single hyphen, strip characters outside
`[a-z0-9-]`, collapse multiple hyphens, trim leading and trailing
hyphens (spec §4.3). -/
def deriveSlug (title : String) : String :=
  String.mk
    (trimHyphens (collapseHyphens
      ((wsRunsToHyphen (title.data.map Char.toLower)).filter isSlugChar)))

/-- Modelled from the spec: `slugFor` (the repository's `@utils/slugify`,
absent from the source tree) returns a present non-empty `slugOverride`
verbatim and otherwise derives the slug from the title (spec §4.3). -/
def slugFor (p : PostRecord) : String :=
  match p.slugOverride with
  | some s => if s = "" then deriveSlug p.title else s
  | none => deriveSlug p.title

/-- The derived search document (spec §3). -/
structure SearchDocument where
  title : String
  description : String
  body : String
  tags : List String
  slug : String
deriving DecidableEq

/-- The search document built from one post (spec §3, §4.4). -/
def toSearchDocument (p : PostRecord) : SearchDocument :=
  { title := p.title, description := p.description, body := p.body,
    tags := p.tags, slug := slugFor p }

/-- Modelled from the spec: `buildIndex` (the repository's search-index
builder, absent from the source tree) skips `draft = true` posts and
emits one `SearchDocument` per remaining post in the order received
(spec §4.4). -/
def buildIndex : List PostRecord → List SearchDocument
  | [] => []
  | p :: ps => if p.draft then buildIndex ps else toSearchDocument p :: buildIndex ps

/-- One item of the JSON body emitted by the latest-posts endpoint
(`src/src/pages/latest-posts.json.ts`, the object literal inside
`sortedPosts.map`). -/
structure FeedItem where
  link : String
  title : String
  description : String
  pubDate : Nat
deriving DecidableEq

/-- The map body of the endpoint: `{ link: posts/slugify(data), title,
description, pubDate: new Date(data.pubDatetime) }`. -/
def feedItemOf (data : PostRecord) : FeedItem :=
  { link := "posts/" ++ slugFor data, title := data.title,
    description := data.description, pubDate := data.publishedAt }

/-- Embedding of `get()` in `src/src/pages/latest-posts.json.ts`: the raw
collection is truncated with `posts.slice(0, 5)` first, the result is
passed to `getSortedPosts` (modelled as `sortPosts`), and each sorted
record is mapped to a feed item.  Note the truncation happens BEFORE
sorting in the source. -/
def latestPostsGet (posts : List PostRecord) : List FeedItem :=
  (sortPosts (posts.take 5)).map feedItemOf

/-- Helper to build concrete posts concisely. -/
def mkPost (title : String) (pub : Nat) (mod : Option Nat) (draft : Bool)
    (slug : Option String) : PostRecord :=
  { title := title, description := "", body := "", author := "Wiktor Kowalski",
    publishedAt := pub, modifiedAt := mod, tags := [], featured := false,
    draft := draft, slugOverride := slug }

/-- Six posts whose raw collection order is oldest first, so the newest
post sits outside the first five raw records. -/
def demoPosts : List PostRecord :=
  [mkPost "p1" 1 none false none, mkPost "p2" 2 none false none,
   mkPost "p3" 3 none false none, mkPost "p4" 4 none false none,
   mkPost "p5" 5 none false none, mkPost "p6" 6 none false none]

/-- The newest of the six demo posts. -/
def post6 : PostRecord := mkPost "p6" 6 none false none

/-- The Node.js post of the repository's content collection, from the
front matter in `src/` (`postSlug` override present). -/
def nodePost : PostRecord :=
  mkPost "Live Feature Flags with AWS Systems Manager and Node.js" 20231116 none false
    (some "live-feature-flags-with-aws-systems-manager-and-nodejs")

/-- The spec's concrete slug-derivation scenario: no override. -/
def cppPost : PostRecord :=
  mkPost "C++ & Rust: Who Wins?" 1 none false none

/-- A draft post placed among the first five records of a collection. -/
def draftDemo : PostRecord := mkPost "draft-post" 10 none true none

/-- A small collection whose first record is a draft. -/
def draftFeed : List PostRecord :=
  [draftDemo, mkPost "a" 3 none false none]

theorem filter_orderedInsert_of_eq (d : Nat) (a : PostRecord)
    (h : effectiveDate a = d) :
    ∀ l : List PostRecord,
      (List.orderedInsert postLaterEq a l).filter (fun p => effectiveDate p == d)
        = a :: l.filter (fun p => effectiveDate p == d)
  | [] => by simp [List.orderedInsert, h]
  | b :: t => by
    by_cases hr : postLaterEq a b
    · rw [List.orderedInsert, if_pos hr]
      simp [h]
    · have hb : effectiveDate b ≠ d := by
        intro hbd
        exact hr (by simp [postLaterEq, h, hbd])
      rw [List.orderedInsert, if_neg hr]
      have hbq : (effectiveDate b == d) = false := by
        simpa using hb
      simp only [List.filter_cons, hbq, Bool.false_eq_true, if_false]
      rw [filter_orderedInsert_of_eq d a h t]

theorem filter_orderedInsert_of_ne (d : Nat) (a : PostRecord)
    (h : effectiveDate a ≠ d) :
    ∀ l : List PostRecord,
      (List.orderedInsert postLaterEq a l).filter (fun p => effectiveDate p == d)
        = l.filter (fun p => effectiveDate p == d)
  | [] => by simp [List.orderedInsert, h]
  | b :: t => by
    by_cases hr : postLaterEq a b
    · rw [List.orderedInsert, if_pos hr]
      simp [h]
    · rw [List.orderedInsert, if_neg hr]
      simp only [List.filter_cons]
      rw [filter_orderedInsert_of_ne d a h t]

/-- C3: `sortPosts` is a permutation of its input — no post is added,
dropped or duplicated, and in particular draft and future-dated posts in
the input also appear in the output (no filtering). -/
theorem sortPosts_perm (P : List PostRecord) : (sortPosts P).Perm P :=
  List.perm_insertionSort postLaterEq P

/-- C2: in `sortPosts P`, every pair of consecutive elements `a` before
`b` satisfies `effectiveDate a ≥ effectiveDate b` (descending by
effective date, `modifiedAt` when present else `publishedAt`). -/
theorem sortPosts_consecutive_desc (P : List PostRecord) :
    List.Chain' (fun a b => effectiveDate b ≤ effectiveDate a) (sortPosts P) :=
  (List.sorted_insertionSort postLaterEq P).chain'

/-- C4: `sortPosts` is stable — for every effective date `d`, the
subsequence of output posts whose effective date is `d` is exactly the
subsequence of input posts whose effective date is `d`, in the same
relative order (no secondary key). -/
theorem sortPosts_stable (P : List PostRecord) (d : Nat) :
    (sortPosts P).filter (fun p => effectiveDate p == d)
      = P.filter (fun p => effectiveDate p == d) := by
  induction P with
  | nil => rfl
  | cons a t ih =>
    show (List.orderedInsert postLaterEq a (sortPosts t)).filter _ = _
    by_cases h : effectiveDate a = d
    · rw [filter_orderedInsert_of_eq d a h (sortPosts t), ih]
      simp [List.filter_cons, h]
    · rw [filter_orderedInsert_of_ne d a h (sortPosts t), ih]
      have hq : (effectiveDate a == d) = false := by simpa using h
      simp [List.filter_cons, hq]

/-- C5: `sortPosts` is idempotent — sorting an already sorted list
changes nothing. -/
theorem sortPosts_idempotent (P : List PostRecord) :
    sortPosts (sortPosts P) = sortPosts P :=
  List.Sorted.insertionSort_eq (List.sorted_insertionSort postLaterEq P)

/-- C1 (code evaluated at the failing input): on a six-post collection
stored oldest first, the latest-posts endpoint does NOT emit the first
five elements of the sorted collection — it truncates the raw collection
to five records before sorting, so the newest post `post6` is missing
from the feed even though it belongs to the first five of the sorted
list. -/
theorem latestPosts_endpoint_diverges :
    latestPostsGet demoPosts ≠ (latest demoPosts 5).map feedItemOf ∧
    feedItemOf post6 ∈ (latest demoPosts 5).map feedItemOf ∧
    feedItemOf post6 ∉ latestPostsGet demoPosts := by
  decide

/-- C6: when `slugOverride` is present and non-empty, `slugFor` returns
it verbatim, with no re-validation or transformation. -/
theorem slugFor_override (p : PostRecord) (s : String)
    (ho : p.slugOverride = some s) (hs : s ≠ "") : slugFor p = s := by
  unfold slugFor
  rw [ho]
  simp [hs]

theorem slugFor_override_witness :
    nodePost.slugOverride = some "live-feature-flags-with-aws-systems-manager-and-nodejs" ∧
    slugFor nodePost = "live-feature-flags-with-aws-systems-manager-and-nodejs" :=
  ⟨rfl, slugFor_override nodePost
    "live-feature-flags-with-aws-systems-manager-and-nodejs" rfl (by decide)⟩

/-- C7: with no `slugOverride`, `slugFor` derives the slug from the
title by lower-casing, replacing whitespace runs with a single hyphen,
stripping characters outside `[a-z0-9-]`, collapsing consecutive hyphens
and trimming boundary hyphens; concretely the title
"C++ & Rust: Who Wins?" yields "c-rust-who-wins". -/
theorem slugFor_no_override (p : PostRecord) (h : p.slugOverride = none) :
    slugFor p =
      String.mk (trimHyphens (collapseHyphens
        ((wsRunsToHyphen (p.title.data.map Char.toLower)).filter isSlugChar))) ∧
    slugFor cppPost = "c-rust-who-wins" := by
  constructor
  · unfold slugFor
    rw [h]
    rfl
  · decide

theorem slugFor_no_override_witness :
    cppPost.slugOverride = none ∧ slugFor cppPost = "c-rust-who-wins" :=
  ⟨rfl, (slugFor_no_override cppPost rfl).2⟩

/-- C8: `buildIndex` is exactly the map of `toSearchDocument` (which
carries `slug = slugFor post`) over the non-draft posts in their input
order: no document derives from a `draft = true` post, every non-draft
post yields exactly one document, and no re-sorting occurs. -/
theorem buildIndex_filters_drafts (P : List PostRecord) :
    buildIndex P = (P.filter (fun p => !p.draft)).map toSearchDocument := by
  induction P with
  | nil => rfl
  | cons p ps ih =>
    by_cases h : p.draft
    · simp [buildIndex, List.filter_cons, h, ih]
    · simp [buildIndex, List.filter_cons, h, ih]

/-- C9: the latest-posts endpoint emits exactly `min 5 n` documents for
a raw collection of `n` records, because the collection is truncated to
its first five records before sorting and mapping. -/
theorem latestPostsGet_length (P : List PostRecord) :
    (latestPostsGet P).length = min 5 P.length := by
  unfold latestPostsGet sortPosts
  rw [List.length_map, List.length_insertionSort, List.length_take]

/-- C10: the latest-posts endpoint applies no draft filtering — every
record among the first five of the raw collection yields a feed item,
regardless of its `draft` flag. -/
theorem latestPostsGet_no_draft_filter (P : List PostRecord) (p : PostRecord)
    (h : p ∈ P.take 5) : feedItemOf p ∈ latestPostsGet P := by
  unfold latestPostsGet sortPosts
  exact List.mem_map_of_mem feedItemOf ((List.mem_insertionSort postLaterEq).2 h)

theorem latestPostsGet_no_draft_filter_witness :
    draftDemo.draft = true ∧ draftDemo ∈ draftFeed.take 5 ∧
    feedItemOf draftDemo ∈ latestPostsGet draftFeed :=
  ⟨rfl, by decide, latestPostsGet_no_draft_filter draftFeed draftDemo (by decide)⟩

end Blog
